import Mathlib

/-!
Verification of the Weekly Study-Plan Scheduling & Regeneration Engine of the
mirror-backend repository.  The definitions below are a shallow embedding of
the relevant code paths:

* `src/app/schemas.py` — `DayOfWeek`, `RoutineBlockRequest` and its validators;
* `src/app/api/routines.py` — `create_weekly_routines` (POST /routines) and
  `update_student_routines` (PATCH /routines) with its regeneration loop;
* `src/app/api/my.py` — `get_student_time_slots` (GET /my/time-slots) and
  `create_weekly_missions` (POST /my/missions);
* `src/app/services/weekly_plan_service.py` — `calculate_weekly_summary` and
  `regenerate_daily_plan_for_date`.

Modelling conventions: HH:MM strings appear already parsed as hour/minute
pairs (the pydantic pattern guarantees parsability); lexicographic comparison
of two zero-padded "HH:MM" strings coincides with comparison of their minute
values 60*h+m, which is how the string comparisons of the conflict check are
modelled; calendar dates are day counts from a fixed Monday epoch, so that
Python `date.weekday()` (Monday = 0) becomes `d % 7`; the OpenAI calls are
black-box oracles; database rows live in plain lists and a "commit" is the pure
state transition.
-/

namespace MirrorBackend

/-- Weekday codes, the `DayOfWeek` enum of `app/schemas.py` (lines 117-125). -/
inductive DayOfWeek where
  | MON | TUE | WED | THU | FRI | SAT | SUN
deriving DecidableEq, Repr, Inhabited

/-- A parsed "HH:MM" time-of-day string (`datetime.strptime(v, "%H:%M")`). -/
structure ClockTime where
  h : Nat
  m : Nat
deriving DecidableEq, Repr, Inhabited

/-- Minute-of-day value of a parsed time; comparing zero-padded "HH:MM"
strings lexicographically is the same as comparing these values. -/
def ClockTime.toMin (t : ClockTime) : Nat := 60 * t.h + t.m

/-- The pydantic pattern `^([0-1][0-9]|2[0-3]):[0-5][0-9]$` of
`schemas.py:135-145`: hours 0..23, minutes 0..59. -/
def ClockTime.wf (t : ClockTime) : Bool := decide (t.h < 24) && decide (t.m < 60)

/-- One submitted routine block, `schemas.RoutineBlockRequest`
(schemas.py:128-171): weekday, start and end times (HH:MM strings, here
already parsed) and the client-declared `total_minutes`. -/
structure RoutineBlockRequest where
  day_of_week : DayOfWeek
  start_time : ClockTime
  end_time : ClockTime
  total_minutes : Int
deriving DecidableEq, Repr, Inhabited

/-- The validation `schemas.RoutineBlockRequest` actually performs: both time
strings must match the HH:MM pattern and parse (schemas.py:135-162), and
`total_minutes` must be > 0 (`gt=0`, schemas.py:147-152 and 164-171).  The
docstring of `validate_total_minutes` (schemas.py:167) says the value must
match the difference between `start_time` and `end_time`, but the
implementation only checks positivity, and no validator compares
`start_time` with `end_time`. -/
def RoutineBlockRequest.schemaValid (b : RoutineBlockRequest) : Bool :=
  b.start_time.wf && b.end_time.wf && decide (0 < b.total_minutes)

/-- A persisted `WeeklyRoutine` row (models.py:114-131).  `block_name` and
`category` are always NULL on the embedded code paths and are omitted. -/
structure WeeklyRoutine where
  day_of_week : DayOfWeek
  start_time : ClockTime
  end_time : ClockTime
  total_minutes : Int
deriving DecidableEq, Repr, Inhabited

/-- The conversion performed when a block is persisted (routines.py:54-60 on
the create path, routines.py:172-184 on the update path): the times are
parsed with `strptime` and `total_minutes` is copied verbatim. -/
def RoutineBlockRequest.toRoutine (b : RoutineBlockRequest) : WeeklyRoutine :=
  ⟨b.day_of_week, b.start_time, b.end_time, b.total_minutes⟩

/-- `create_weekly_routines` (routines.py:21-89, POST /routines): for each
block of the schema-validated request, parse the times and insert a
`WeeklyRoutine` row; then commit.  No overlap check and no start/end
ordering check is performed anywhere on this path. -/
def create_weekly_routines (blocks : List RoutineBlockRequest) : List WeeklyRoutine :=
  blocks.map RoutineBlockRequest.toRoutine

/-- The closed-open overlap test of routines.py:150: blocks `(s1, e1)` and
`(s2, e2)` conflict unless `e1 <= s2 or e2 <= s1` (string comparison on the
HH:MM values, modelled on minute-of-day values). -/
def overlapB (a b : ClockTime × ClockTime) : Bool :=
  !(decide (a.2.toMin ≤ b.1.toMin) || decide (b.2.toMin ≤ a.1.toMin))

/-- The weekdays present in a submission, in first-occurrence order: the key
list of the `time_blocks_by_day` / `routines_by_day` dicts
(routines.py:137-142 and 190-193); `changed_days` (routines.py:243) is the
set of these keys, used only for membership tests. -/
def weekdaysOf (req : List RoutineBlockRequest) : List DayOfWeek :=
  req.foldl (fun acc b => if b.day_of_week ∈ acc then acc else acc ++ [b.day_of_week]) []

/-- `time_blocks_by_day[d]` (routines.py:137-142): the (start, end) pairs of
the submitted blocks on weekday `d`, in submission order (dict values are
built by appending while iterating the request). -/
def blocksFor (req : List RoutineBlockRequest) (d : DayOfWeek) : List (ClockTime × ClockTime) :=
  (req.filter (fun b => decide (b.day_of_week = d))).map (fun b => (b.start_time, b.end_time))

/-- The inner scan of the conflict loop (routines.py:146-150): a fixed block
against each later block of the same weekday, in order; returns the first
later block it overlaps. -/
def firstOverlapWith (b : ClockTime × ClockTime) :
    List (ClockTime × ClockTime) → Option (ClockTime × ClockTime)
  | [] => none
  | c :: rest => if overlapB b c then some c else firstOverlapWith b rest

/-- The i < j pair scan of routines.py:145-150 over one weekday's blocks:
returns the first overlapping pair, earlier block first. -/
def pairConflict :
    List (ClockTime × ClockTime) → Option ((ClockTime × ClockTime) × (ClockTime × ClockTime))
  | [] => none
  | b :: rest =>
    match firstOverlapWith b rest with
    | some c => some (b, c)
    | none => pairConflict rest

/-- Weekday-by-weekday part of the conflict validation (routines.py:144-154),
iterating the dict keys in insertion order. -/
def findConflictAux (req : List RoutineBlockRequest) :
    List DayOfWeek → Option (DayOfWeek × ClockTime × ClockTime)
  | [] => none
  | d :: ds =>
    match pairConflict (blocksFor req d) with
    | some (p, _q) => some (d, p.1, p.2)
    | none => findConflictAux req ds

/-- The conflict validation of `update_student_routines`
(routines.py:136-154): group the submitted blocks by weekday, scan every
i < j pair within each weekday, and report the first conflict found as
(weekday, start1, end1) — the data interpolated into the error message
"시간대 겹침: {day} {start1}-{end1}" (routines.py:152). -/
def findConflict (req : List RoutineBlockRequest) : Option (DayOfWeek × ClockTime × ClockTime) :=
  findConflictAux req (weekdaysOf req)

/-- A `Task` row (models.py:148-157) as written by the plan endpoints;
`completed_at` is never set on these paths and is omitted. -/
structure TaskRow where
  category : String
  title : String
  assigned_minutes : Int
  sequence : Int
  is_completed : Bool
deriving DecidableEq, Repr, Inhabited

/-- A `DailyPlan` row (models.py:135-145) together with its owned tasks.
Dates are day counts from a fixed Monday epoch. -/
structure DailyPlan where
  id : Nat
  plan_date : Nat
  title : String
  target_minutes : Int
  is_completed : Bool
  tasks : List TaskRow
deriving DecidableEq, Repr, Inhabited

/-- `day_map_num_to_code` (routines.py:247-250): Python `date.weekday()`
values 0..6 to weekday codes, Monday = 0. -/
def day_map_num_to_code (n : Nat) : DayOfWeek :=
  match n % 7 with
  | 0 => .MON
  | 1 => .TUE
  | 2 => .WED
  | 3 => .THU
  | 4 => .FRI
  | 5 => .SAT
  | _ => .SUN

/-- `plan.plan_date.weekday()` mapped through `day_map_num_to_code`
(routines.py:257), for dates modelled as day counts from a Monday epoch. -/
def dateWeekday (d : Nat) : DayOfWeek := day_map_num_to_code d

/-- One task of a proposer (OpenAI) response, with the fields the engine
consumes (routines.py:311-319). -/
structure AiTask where
  category : String
  title : String
  assigned_minutes : Int
  sequence : Int
deriving DecidableEq, Repr, Inhabited

/-- A single day of a proposer response as consumed by the regeneration loop
(routines.py:300-325) and by `calculate_weekly_summary`
(weekly_plan_service.py:292-313): the day focus, the day-level
`total_planned_minutes` figure, and the task list. -/
structure AiDayPlan where
  daily_focus : String
  total_planned_minutes : Int
  tasks : List AiTask
deriving DecidableEq, Repr, Inhabited

/-- `regenerate_daily_plan_for_date` (weekly_plan_service.py:332-485).  The
OpenAI call is an oracle from the target date to an optional response: every
exception in the call is caught and turned into `None`
(weekly_plan_service.py:481-485), and a day whose routines carry zero total
minutes returns `None` up front (weekly_plan_service.py:363-368). -/
def regenerate_daily_plan_for_date (oracle : Nat → Option AiDayPlan)
    (day_routines : List WeeklyRoutine) (target_date : Nat) : Option AiDayPlan :=
  if (day_routines.map (fun r => r.total_minutes)).sum = 0 then none
  else oracle target_date

/-- `schemas.PlanChanges` (schemas.py:604-609). -/
structure PlanChanges where
  old_tasks_count : Nat
  new_tasks_count : Nat
  old_minutes : Int
  new_minutes : Int
deriving DecidableEq, Repr, Inhabited

/-- `schemas.RegeneratedPlanItem` (schemas.py:612-622) as filled in
routines.py:276-374.  `plan_date` is kept as the day number; the
"%Y-%m-%d"-formatted string is presentation only and is omitted. -/
structure RegeneratedPlanItem where
  plan_id : Nat
  plan_date : Nat
  day_of_week : DayOfWeek
  affected : Bool
  status : String
  tasks_count : Nat
  total_minutes : Int
  changes : Option PlanChanges
  error_message : Option String
deriving DecidableEq, Repr, Inhabited

/-- The per-student persistent state the engine touches: the `WeeklyRoutine`
rows and the `DailyPlan` rows with their owned tasks. -/
structure EngineState where
  routines : List WeeklyRoutine
  plans : List DailyPlan
deriving DecidableEq, Repr, Inhabited

/-- The `DailyPlan` query filter of routines.py:231-238:
`plan_date >= today` and `is_completed == False`. -/
def selectPlan (today : Nat) (p : DailyPlan) : Bool :=
  decide (today ≤ p.plan_date) && !p.is_completed

/-- Tasks inserted from a proposer response (routines.py:311-320): category,
title, minutes and sequence copied verbatim, `is_completed` false. -/
def tasksFromAi (ts : List AiTask) : List TaskRow :=
  ts.map (fun t => ⟨t.category, t.title, t.assigned_minutes, t.sequence, false⟩)

/-- The `DailyPlan` update applied on proposer success (routines.py:301-322):
delete the existing tasks, set title and `target_minutes` from the response,
insert the new tasks verbatim.  No validation of the returned sequences or
minutes happens anywhere on this path. -/
def applyAi (p : DailyPlan) (ai : AiDayPlan) : DailyPlan :=
  { p with
    title := ai.daily_focus
    target_minutes := ai.total_planned_minutes
    tasks := tasksFromAi ai.tasks }

/-- Processing of one loaded plan inside the regeneration loop
(routines.py:256-375): returns the plan's resulting row together with its
report item.  `newRoutines` are the freshly inserted rows (so
`routines_by_day.get(code, [])` is their weekday filter) and `changedDays`
is the key set of `routines_by_day`. -/
def processPlan (oracle : Nat → Option AiDayPlan) (newRoutines : List WeeklyRoutine)
    (changedDays : List DayOfWeek) (p : DailyPlan) : DailyPlan × RegeneratedPlanItem :=
  let code := dateWeekday p.plan_date
  let oldCount := p.tasks.length
  let oldMin := (p.tasks.map (fun t => t.assigned_minutes)).sum
  if code ∈ changedDays then
    let dayRoutines := newRoutines.filter (fun r => decide (r.day_of_week = code))
    if dayRoutines = [] then
      (p, ⟨p.id, p.plan_date, code, true, "failed", oldCount, oldMin, none,
           some "해당 요일의 루틴이 없습니다"⟩)
    else
      match regenerate_daily_plan_for_date oracle dayRoutines p.plan_date with
      | some ai =>
        (applyAi p ai,
         ⟨p.id, p.plan_date, code, true, "regenerated", ai.tasks.length,
          ai.total_planned_minutes,
          some ⟨oldCount, ai.tasks.length, oldMin, ai.total_planned_minutes⟩, none⟩)
      | none =>
        (p, ⟨p.id, p.plan_date, code, true, "failed", oldCount, oldMin, none,
             some "AI 계획 생성 실패"⟩)
  else
    (p, ⟨p.id, p.plan_date, code, false, "unchanged", oldCount, oldMin, none, none⟩)

/-- Outcome of PATCH /routines as far as the engine state is concerned: the
two validation failures (routines.py:130-134 and 144-154) leave the state
untouched; success carries the per-day report and the count of deleted old
routine rows. -/
inductive UpdateOutcome where
  | emptyBlocks : UpdateOutcome
  | conflict : DayOfWeek → ClockTime → ClockTime → UpdateOutcome
  | ok : List RegeneratedPlanItem → Nat → UpdateOutcome
deriving DecidableEq, Repr, Inhabited

/-- The future, incomplete plans loaded for regeneration
(routines.py:229-238): filtered by `selectPlan`, ordered by `plan_date`
(a stable sort, like the SQL order-by over the stored rows). -/
def futurePlans (today : Nat) (st : EngineState) : List DailyPlan :=
  (st.plans.filter (selectPlan today)).insertionSort (fun a b => a.plan_date ≤ b.plan_date)

/-- `update_student_routines` (routines.py:92-413, PATCH /routines):
empty-submission check, conflict validation, delete-all-then-insert of the
routine rows, the per-plan regeneration loop, and a single commit at the
end.  Profile and user lookups, UUID assignment and logging are omitted;
commit failure is not modelled — the returned state is the committed
transaction.  The final plan store replaces each selected plan by its
processed row and keeps every other plan untouched, which is exactly what
the loop's in-place mutations amount to. -/
def update_student_routines (oracle : Nat → Option AiDayPlan) (today : Nat)
    (st : EngineState) (req : List RoutineBlockRequest) :
    EngineState × UpdateOutcome :=
  if req = [] then (st, .emptyBlocks)
  else
    match findConflict req with
    | some (d, s, e) => (st, .conflict d s e)
    | none =>
      let newRoutines := req.map RoutineBlockRequest.toRoutine
      let changed := weekdaysOf req
      let items := (futurePlans today st).map
        (fun p => (processPlan oracle newRoutines changed p).2)
      let newPlans := st.plans.map
        (fun p => if selectPlan today p then (processPlan oracle newRoutines changed p).1 else p)
      (⟨newRoutines, newPlans⟩, .ok items st.routines.length)

/-- The stats counters of routines.py:253, incremented once per report item
of the given status (routines.py:287, 345, 360, 375). -/
def countStatus (items : List RegeneratedPlanItem) (s : String) : Nat :=
  items.countP (fun it => it.status == s)

/-- `day_order` (my.py:41): the seven weekdays in order.  The MONDAY..SUNDAY
names of the response are identified with the stored MON..SUN codes through
`day_map` (my.py:44-47), which is a bijection. -/
def day_order : List DayOfWeek := [.MON, .TUE, .WED, .THU, .FRI, .SAT, .SUN]

/-- The `day_totals` accumulation of `get_student_time_slots` (my.py:42-52):
each weekday starts at 0 and each routine adds its `total_minutes` to its
weekday's bucket.  The truthiness guard `and routine.total_minutes` skips
falsy values, i.e. 0 — which leaves the total unchanged either way. -/
def day_totals (routines : List WeeklyRoutine) : DayOfWeek → Int :=
  routines.foldl
    (fun acc r =>
      if r.total_minutes ≠ 0 then
        fun d => if d = r.day_of_week then acc d + r.total_minutes else acc d
      else acc)
    (fun _ => 0)

/-- The `weekly_schedule` response of `get_student_time_slots` (my.py:54-61,
GET /my/time-slots): one (weekday, recommended minutes) entry per weekday of
`day_order`, in order. -/
def get_student_time_slots (routines : List WeeklyRoutine) : List (DayOfWeek × Int) :=
  day_order.map (fun d => (d, day_totals routines d))

/-- The minutes stored for weekday `d`: the sum of the stored durations of
the blocks on that weekday (the quantity the aggregation is claimed to
compute). -/
def weekdayMinutes (routines : List WeeklyRoutine) (d : DayOfWeek) : Int :=
  ((routines.filter (fun r => decide (r.day_of_week = d))).map (fun r => r.total_minutes)).sum

/-- The dict upsert `subject_dist[category] = subject_dist.get(category, 0) +
minutes` (weekly_plan_service.py:310-313); Python dicts keep first-insertion
key order. -/
def distAdd (dist : List (String × Int)) (c : String) (m : Int) : List (String × Int) :=
  if dist.any (fun p => p.1 == c) then
    dist.map (fun p => if p.1 == c then (p.1, p.2 + m) else p)
  else dist ++ [(c, m)]

/-- The (category, assigned_minutes) pairs of all tasks of all days, in
iteration order (weekly_plan_service.py:304-313). -/
def taskPairs (days : List AiDayPlan) : List (String × Int) :=
  days.flatMap (fun d => d.tasks.map (fun t => (t.category, t.assigned_minutes)))

/-- The `focus_areas` set of weekly_plan_service.py:302-307: every truthy
(non-empty) `daily_focus` value is added to a Python `set`.  A `set` keeps
no specified iteration order; it is modelled as the distinct non-empty
values in first-appearance order, and only order-independent facts are
proved about the `[:3]` truncation. -/
def focusSet (days : List AiDayPlan) : List String :=
  days.foldl
    (fun acc d =>
      if d.daily_focus = "" then acc
      else if d.daily_focus ∈ acc then acc
      else acc ++ [d.daily_focus])
    []

/-- A 7-day proposer response as returned by `generate_weekly_plan`
(consumed at my.py:144-153): the `weekly_plan` day list. -/
structure WeeklyPlanResponse where
  weekly_plan : List AiDayPlan
deriving DecidableEq, Repr, Inhabited

/-- The summary dict built by `calculate_weekly_summary`
(weekly_plan_service.py:324-330).  `start_date` is echoed from the
parameter and `end_date` is the formatted `start_date + 6 days`; both are
presentation strings no claim concerns, so they are omitted here. -/
structure WeeklySummary where
  total_study_minutes : Int
  subject_distribution : List (String × Int)
  focus_areas : List String
deriving DecidableEq, Repr, Inhabited

/-- `calculate_weekly_summary` (weekly_plan_service.py:275-330): the total is
the sum of the day-level `total_planned_minutes` fields
(weekly_plan_service.py:295-298) — not of the tasks' assigned minutes; the
distribution is the per-category upsert over all tasks; the focus areas are
the set of truthy `daily_focus` values truncated to 3
(weekly_plan_service.py:327).  The `start_date_str` parameter only feeds the
omitted date strings. -/
def calculate_weekly_summary (resp : WeeklyPlanResponse) (start_date_str : String) :
    WeeklySummary :=
  { total_study_minutes := (resp.weekly_plan.map (fun d => d.total_planned_minutes)).sum
    subject_distribution :=
      (taskPairs resp.weekly_plan).foldl (fun acc p => distAdd acc p.1 p.2) []
    focus_areas := (focusSet resp.weekly_plan).take 3 }

/-- Result of running a Python code path that may raise. -/
inductive PyResult (α : Type) where
  | ok : α → PyResult α
  | exn : String → PyResult α
deriving DecidableEq, Repr

/-- The materialization loop of `create_weekly_missions` (my.py:156-210):
one `DailyPlan` per proposal day at `start_date + day_index`
(my.py:163-179), then that day's tasks inserted in proposal order with
category, title, minutes and sequence copied verbatim (my.py:183-208).
Row ids are the day index here (UUIDs are not modelled).  This loop is
reachable only after the summary step; see `create_weekly_missions`. -/
def materialize_week (start_date : Nat) (days : List AiDayPlan) : List DailyPlan :=
  days.enum.map (fun di =>
    { id := di.1
      plan_date := start_date + di.1
      title := di.2.daily_focus
      target_minutes := di.2.total_planned_minutes
      is_completed := false
      tasks := tasksFromAi di.2.tasks })

/-- The call `calculate_weekly_summary(ai_response)` at my.py:153.  The
callee (weekly_plan_service.py:275) declares two required positional
parameters, `weekly_plan_data` and `start_date_str`; the call supplies only
one, so Python raises `TypeError` before the callee's body runs. -/
def summary_step (resp : WeeklyPlanResponse) : PyResult WeeklySummary :=
  .exn "TypeError: calculate_weekly_summary() missing 1 required positional argument: start_date_str"

/-- `create_weekly_missions` (my.py:69-245, POST /my/missions) from the point
where the proposer response is in hand: evaluate the summary call of
my.py:153, then parse `summary_info['start_date']` and materialize the week
(my.py:156-210) inside one transaction.  The `TypeError` of the summary step
is raised outside the try/except that starts at my.py:156, so it propagates
out of the endpoint and nothing is persisted; the materialization branch is
unreachable.  `start_date` stands for the date the summary would have
provided. -/
def create_weekly_missions (resp : WeeklyPlanResponse) (start_date : Nat) :
    PyResult (List DailyPlan) :=
  match summary_step resp with
  | .exn m => .exn m
  | .ok _ => .ok (materialize_week start_date resp.weekly_plan)

/-! Concrete fixtures used to evaluate the definitions at specific inputs
(spec §8 scenarios and small states built from them). -/

/-- The spec's conflict scenario: TUE 09:00-10:00. -/
def tueBlock1 : RoutineBlockRequest := ⟨.TUE, ⟨9, 0⟩, ⟨10, 0⟩, 60⟩

/-- The spec's conflict scenario: TUE 09:30-10:30, overlapping `tueBlock1`. -/
def tueBlock2 : RoutineBlockRequest := ⟨.TUE, ⟨9, 30⟩, ⟨10, 30⟩, 60⟩

/-- A well-formed Monday block, 10:00-12:00. -/
def monBlock : RoutineBlockRequest := ⟨.MON, ⟨10, 0⟩, ⟨12, 0⟩, 120⟩

/-- A block whose start is after its end (schema-valid times, start ≥ end)
with a client-declared duration unrelated to end − start. -/
def invertedBlock : RoutineBlockRequest := ⟨.MON, ⟨10, 0⟩, ⟨9, 0⟩, 30⟩

/-- A future, incomplete Wednesday plan (date 2 from the Monday epoch). -/
def wedPlan : DailyPlan := ⟨1, 2, "old", 120, false, [⟨"수학", "old task", 120, 1, false⟩]⟩

/-- A state holding one Wednesday routine row and `wedPlan`. -/
def stWed : EngineState := ⟨[⟨.WED, ⟨19, 0⟩, ⟨21, 0⟩, 120⟩], [wedPlan]⟩

/-- A future, incomplete Monday plan on date 0 with one 50-minute task. -/
def monPlan : DailyPlan := ⟨1, 0, "t", 100, false, [⟨"국어", "o", 50, 1, false⟩]⟩

/-- A proposer response that violates the §4.3 contract: duplicate sequence
numbers (1, 1) and a non-positive assigned-minutes value (0). -/
def aiBad : AiDayPlan := ⟨"focus", 30, [⟨"수학", "a", 0, 1⟩, ⟨"영어", "b", 30, 1⟩]⟩

/-- A well-formed proposer response used for success cases. -/
def aiGood : AiDayPlan := ⟨"focus good", 110, [⟨"수학", "p1", 60, 1⟩, ⟨"영어", "p2", 50, 2⟩]⟩

/-- A future, incomplete Tuesday plan on date 1. -/
def tuePlan : DailyPlan := ⟨2, 1, "u", 90, false, [⟨"영어", "q", 90, 1, false⟩]⟩

/-- A one-day weekly proposal whose day-level total (100) differs from the
sum of its tasks' assigned minutes (30). -/
def respSkew : WeeklyPlanResponse := ⟨[⟨"focus", 100, [⟨"수학", "t", 30, 1⟩]⟩]⟩

/-- A plan dated before today (today = 1 in the frame fixtures). -/
def pastPlan : DailyPlan := ⟨3, 0, "past", 60, false, [⟨"수학", "x", 60, 1, false⟩]⟩

/-- An already-completed plan. -/
def donePlan : DailyPlan := ⟨4, 3, "done", 60, true, [⟨"영어", "y", 60, 1, false⟩]⟩

/-- A state with a past plan, a completed plan and a future incomplete one. -/
def stFrame : EngineState := ⟨[], [pastPlan, donePlan, tuePlan]⟩

/-- A state with future incomplete plans on Monday (date 0) and Tuesday
(date 1). -/
def stBoth : EngineState := ⟨[], [monPlan, tuePlan]⟩

/-- An oracle that succeeds for date 0 and fails for every other date. -/
def oracle3 : Nat → Option AiDayPlan := fun n => if n = 0 then some aiGood else none

/-! ## Helper lemmas -/

/-- Unrolling the `day_totals` fold: the accumulated figure for a weekday is
the initial figure plus that weekday's stored minutes. -/
theorem day_totals_foldl_eq (rs : List WeeklyRoutine) :
    ∀ (acc : DayOfWeek → Int) (d : DayOfWeek),
      rs.foldl
        (fun acc r =>
          if r.total_minutes ≠ 0 then
            fun d => if d = r.day_of_week then acc d + r.total_minutes else acc d
          else acc)
        acc d = acc d + weekdayMinutes rs d := by
  induction rs with
  | nil => intro acc d; simp [weekdayMinutes]
  | cons r rest ih =>
    intro acc d
    simp only [List.foldl_cons]
    rw [ih]
    by_cases h0 : r.total_minutes = 0 <;> by_cases hd : d = r.day_of_week <;>
      simp [weekdayMinutes, List.filter_cons, h0, hd, eq_comm] <;> omega

/-- `day_totals` computes exactly the per-weekday sum of stored durations. -/
theorem day_totals_eq (rs : List WeeklyRoutine) (d : DayOfWeek) :
    day_totals rs d = weekdayMinutes rs d := by
  have h := day_totals_foldl_eq rs (fun _ => 0) d
  simpa [day_totals] using h

/-- Summing the seven per-weekday totals recovers the total stored minutes. -/
theorem week_sum_eq (rs : List WeeklyRoutine) :
    (day_order.map (fun d => weekdayMinutes rs d)).sum =
      (rs.map (fun r => r.total_minutes)).sum := by
  induction rs with
  | nil => simp [weekdayMinutes, day_order]
  | cons r rest ih =>
    have expand : ∀ d, weekdayMinutes (r :: rest) d =
        (if r.day_of_week = d then r.total_minutes else 0) + weekdayMinutes rest d := by
      intro d
      by_cases h : r.day_of_week = d <;> simp [weekdayMinutes, List.filter_cons, h]
    simp only [day_order, List.map_cons, List.map_nil, List.sum_cons, List.sum_nil] at ih ⊢
    simp only [expand]
    cases r.day_of_week <;> simp <;> omega

/-! ## C9 — weekly availability aggregation -/

/-- C9: `get_student_time_slots` returns a total for each of the 7 weekdays
(0 when no blocks exist), each weekday's total equals the sum of that
weekday's stored block durations, and the seven totals sum to the total
duration of all stored blocks. -/
theorem weekly_availability_totals (rs : List WeeklyRoutine) :
    (get_student_time_slots rs).length = 7
    ∧ (∀ d : DayOfWeek, (d, day_totals rs d) ∈ get_student_time_slots rs)
    ∧ (∀ d : DayOfWeek, day_totals rs d = weekdayMinutes rs d)
    ∧ ((get_student_time_slots rs).map (fun e => e.2)).sum =
        (rs.map (fun r => r.total_minutes)).sum := by
  refine ⟨by simp [get_student_time_slots, day_order], ?_, day_totals_eq rs, ?_⟩
  · intro d
    cases d <;> simp [get_student_time_slots, day_order]
  · have hfun : (fun d => day_totals rs d) = fun d => weekdayMinutes rs d :=
      funext (day_totals_eq rs)
    calc ((get_student_time_slots rs).map (fun e => e.2)).sum
        = (day_order.map (fun d => day_totals rs d)).sum := by
          simp [get_student_time_slots, List.map_map, Function.comp_def]
      _ = (day_order.map (fun d => weekdayMinutes rs d)).sum := by rw [hfun]
      _ = (rs.map (fun r => r.total_minutes)).sum := week_sum_eq rs

/-! ## C10 — routine registration has no conflict check -/

/-- C10: `create_weekly_routines` (POST /routines) performs no overlap and no
time-ordering check: every schema-valid submission is persisted in full, one
stored row per submitted block, in order.  In particular (see the witness) a
submission with two overlapping blocks on the same weekday succeeds; conflict
detection exists only on the PATCH /routines path. -/
theorem create_routines_no_conflict_check (blocks : List RoutineBlockRequest)
    (hvalid : ∀ b ∈ blocks, b.schemaValid = true) :
    create_weekly_routines blocks = blocks.map RoutineBlockRequest.toRoutine
    ∧ (create_weekly_routines blocks).length = blocks.length := by
  exact ⟨rfl, by simp [create_weekly_routines]⟩

/-- C10 witness: two schema-valid TUE blocks that overlap under the
closed-open semantics are both persisted by routine registration. -/
theorem create_routines_no_conflict_check_witness :
    ((∀ b ∈ [tueBlock1, tueBlock2], b.schemaValid = true)
      ∧ tueBlock1.day_of_week = tueBlock2.day_of_week
      ∧ overlapB (tueBlock1.start_time, tueBlock1.end_time)
          (tueBlock2.start_time, tueBlock2.end_time) = true)
    ∧ (create_weekly_routines [tueBlock1, tueBlock2] =
          [tueBlock1, tueBlock2].map RoutineBlockRequest.toRoutine
        ∧ (create_weekly_routines [tueBlock1, tueBlock2]).length =
            [tueBlock1, tueBlock2].length) :=
  ⟨by decide, create_routines_no_conflict_check [tueBlock1, tueBlock2] (by decide)⟩

/-! ## C7 — start < end and the duration invariant are not enforced -/

/-- C7 (code defect): a block whose start (10:00) is at or after its end
(09:00) passes every validation of `RoutineBlockRequest` and is persisted by
both registration and update with its client-declared `total_minutes` (30)
stored verbatim, although end − start is −60 minutes.  The docstring of
`validate_total_minutes` (schemas.py:167) states the duration must match the
start/end difference and the spec requires start < end with a malformed-time
rejection; neither check exists in the code. -/
theorem inverted_time_block_accepted :
    invertedBlock.schemaValid = true
    ∧ invertedBlock.end_time.toMin ≤ invertedBlock.start_time.toMin
    ∧ create_weekly_routines [invertedBlock] = [invertedBlock.toRoutine]
    ∧ invertedBlock.toRoutine.total_minutes = 30
    ∧ ((invertedBlock.end_time.toMin : Int) - (invertedBlock.start_time.toMin : Int)) = -60
    ∧ invertedBlock.toRoutine.total_minutes ≠
        ((invertedBlock.end_time.toMin : Int) - (invertedBlock.start_time.toMin : Int))
    ∧ update_student_routines (fun _ => none) 0 ⟨[], []⟩ [invertedBlock] =
        (⟨[invertedBlock.toRoutine], []⟩, .ok [] 0) := by
  decide

/-! ## C4 — weekly-plan creation crashes in the summary step -/

/-- C4 (code defect): `create_weekly_missions` never reaches the
materialization loop.  The call at my.py:153 passes a single argument to
`calculate_weekly_summary`, whose signature (weekly_plan_service.py:275)
requires `start_date_str` as well, so every invocation raises `TypeError`
before any `DailyPlan` or `Task` is created — instead of creating the 7
claimed DayPlans. -/
theorem create_weekly_missions_raises_type_error :
    ∀ (resp : WeeklyPlanResponse) (start_date : Nat),
      create_weekly_missions resp start_date =
        .exn "TypeError: calculate_weekly_summary() missing 1 required positional argument: start_date_str" := by
  intro resp start_date
  rfl

/-! ## C5 — weekly summary -/

/-- The dict upsert `distAdd` changes the key set only by possibly adding the
upserted key. -/
theorem distAdd_key (acc : List (String × Int)) (c c2 : String) (m : Int) :
    (∃ mv, (c, mv) ∈ distAdd acc c2 m) ↔ ((∃ mv, (c, mv) ∈ acc) ∨ c = c2) := by
  unfold distAdd
  by_cases hany : acc.any (fun p => p.1 == c2)
  · simp only [hany, if_true]
    constructor
    · rintro ⟨mv, hmem⟩
      rcases List.mem_map.mp hmem with ⟨p, hp, hfp⟩
      left
      by_cases hc2 : (p.1 == c2) = true
      · rw [if_pos hc2] at hfp
        simp only [Prod.mk.injEq] at hfp
        exact ⟨p.2, by rw [← hfp.1]; exact hp⟩
      · rw [if_neg hc2] at hfp
        exact ⟨mv, hfp ▸ hp⟩
    · intro h
      have hkey : ∃ mv, (c, mv) ∈ acc := by
        rcases h with h | h
        · exact h
        · rcases List.any_eq_true.mp hany with ⟨p, hp, hpc⟩
          refine ⟨p.2, ?_⟩
          have : p.1 = c2 := by simpa using hpc
          rw [h, ← this]
          exact hp
      rcases hkey with ⟨mv, hmem⟩
      by_cases hc2 : c = c2
      · refine ⟨mv + m, ?_⟩
        refine List.mem_map.mpr ⟨(c, mv), hmem, ?_⟩
        simp [hc2]
      · refine ⟨mv, ?_⟩
        refine List.mem_map.mpr ⟨(c, mv), hmem, ?_⟩
        simp [hc2]
  · simp only [hany, if_false]
    constructor
    · rintro ⟨mv, hmem⟩
      rcases List.mem_append.mp hmem with h | h
      · exact Or.inl ⟨mv, h⟩
      · right
        have heq := List.mem_singleton.mp h
        rw [Prod.ext_iff] at heq
        exact heq.1
    · rintro (⟨mv, hmem⟩ | rfl)
      · exact ⟨mv, List.mem_append.mpr (Or.inl hmem)⟩
      · exact ⟨m, List.mem_append.mpr (Or.inr (List.mem_singleton.mpr rfl))⟩

/-- Key set of the folded distribution: the initial keys plus the categories
of the iterated pairs. -/
theorem distFold_key (pairs : List (String × Int)) :
    ∀ (acc : List (String × Int)) (c : String),
      (∃ mv, (c, mv) ∈ pairs.foldl (fun a p => distAdd a p.1 p.2) acc) ↔
        ((∃ mv, (c, mv) ∈ acc) ∨ ∃ p ∈ pairs, p.1 = c) := by
  induction pairs with
  | nil => intro acc c; simp
  | cons hd tl ih =>
    intro acc c
    simp only [List.foldl_cons]
    rw [ih, distAdd_key]
    constructor
    · rintro ((h | h) | ⟨p, hp, hpc⟩)
      · exact Or.inl h
      · exact Or.inr ⟨hd, List.mem_cons_self hd tl, h.symm⟩
      · exact Or.inr ⟨p, List.mem_cons_of_mem hd hp, hpc⟩
    · rintro (h | ⟨p, hp, hpc⟩)
      · exact Or.inl (Or.inl h)
      · rcases List.mem_cons.mp hp with rfl | hp2
        · exact Or.inl (Or.inr hpc.symm)
        · exact Or.inr ⟨p, hp2, hpc⟩

/-- Membership of the folded focus set: the initial entries plus the
non-empty daily_focus values of the iterated days. -/
theorem focusSet_foldl_mem (days : List AiDayPlan) :
    ∀ (acc : List String) (f : String),
      f ∈ days.foldl
        (fun acc d =>
          if d.daily_focus = "" then acc
          else if d.daily_focus ∈ acc then acc
          else acc ++ [d.daily_focus])
        acc ↔
      (f ∈ acc ∨ ∃ d ∈ days, d.daily_focus = f ∧ f ≠ "") := by
  induction days with
  | nil => intro acc f; simp
  | cons hd tl ih =>
    intro acc f
    simp only [List.foldl_cons]
    rw [ih]
    by_cases hempty : hd.daily_focus = ""
    · simp only [hempty, if_true]
      constructor
      · rintro (h | h)
        · exact Or.inl h
        · exact Or.inr (by rcases h with ⟨d, hd2, hdf⟩; exact ⟨d, List.mem_cons_of_mem hd hd2, hdf⟩)
      · rintro (h | ⟨d, hd2, hdf, hne⟩)
        · exact Or.inl h
        · rcases List.mem_cons.mp hd2 with rfl | hd3
          · exact absurd (hempty ▸ hdf) (Ne.symm hne)
          · exact Or.inr ⟨d, hd3, hdf, hne⟩
    · by_cases hin : hd.daily_focus ∈ acc
      · simp only [hempty, if_false, hin, if_true]
        constructor
        · rintro (h | ⟨d, hd2, hdf⟩)
          · exact Or.inl h
          · exact Or.inr ⟨d, List.mem_cons_of_mem hd hd2, hdf⟩
        · rintro (h | ⟨d, hd2, hdf, hne⟩)
          · exact Or.inl h
          · rcases List.mem_cons.mp hd2 with rfl | hd3
            · exact Or.inl (hdf ▸ hin)
            · exact Or.inr ⟨d, hd3, hdf, hne⟩
      · simp only [hempty, if_false, hin, if_false]
        constructor
        · rintro (h | ⟨d, hd2, hdf⟩)
          · rcases List.mem_append.mp h with h2 | h2
            · exact Or.inl h2
            · have : f = hd.daily_focus := List.mem_singleton.mp h2
              exact Or.inr ⟨hd, List.mem_cons_self hd tl, this.symm, this ▸ hempty⟩
          · exact Or.inr ⟨d, List.mem_cons_of_mem hd hd2, hdf⟩
        · rintro (h | ⟨d, hd2, hdf, hne⟩)
          · exact Or.inl (List.mem_append.mpr (Or.inl h))
          · rcases List.mem_cons.mp hd2 with rfl | hd3
            · exact Or.inl (List.mem_append.mpr (Or.inr (List.mem_singleton.mpr hdf.symm)))
            · exact Or.inr ⟨d, hd3, hdf, hne⟩

/-- C5 counterexample: on a proposal whose single day declares
`total_planned_minutes = 100` while its tasks' assigned minutes sum to 30,
`calculate_weekly_summary` reports total study minutes 100, not the sum of
assigned minutes over all tasks — refuting the claim as stated. -/
theorem weekly_summary_total_cex :
    (calculate_weekly_summary respSkew "2025-01-06").total_study_minutes = 100
    ∧ ((respSkew.weekly_plan.map
          (fun d => (d.tasks.map (fun t => t.assigned_minutes)).sum)).sum) = 30
    ∧ (100 : Int) ≠ 30 := by
  decide

/-- C5 (amended): `calculate_weekly_summary` returns total study minutes
equal to the sum of the day-level `total_planned_minutes` values (not of the
tasks' minutes); the distribution keys are exactly the task categories seen;
and the focus areas are at most 3 labels, each a non-empty `daily_focus`
value of some day (the Python set it is drawn from keeps no specified
order, so no first-appearance ordering is guaranteed). -/
theorem weekly_summary_amended (resp : WeeklyPlanResponse) (sd : String) :
    (calculate_weekly_summary resp sd).total_study_minutes =
        (resp.weekly_plan.map (fun d => d.total_planned_minutes)).sum
    ∧ (∀ c : String,
        (∃ mv, (c, mv) ∈ (calculate_weekly_summary resp sd).subject_distribution) ↔
          ∃ d ∈ resp.weekly_plan, ∃ t ∈ d.tasks, t.category = c)
    ∧ (calculate_weekly_summary resp sd).focus_areas.length ≤ 3
    ∧ (∀ f ∈ (calculate_weekly_summary resp sd).focus_areas,
        ∃ d ∈ resp.weekly_plan, d.daily_focus = f ∧ f ≠ "") := by
  refine ⟨rfl, ?_, ?_, ?_⟩
  · intro c
    have h := distFold_key (taskPairs resp.weekly_plan) [] c
    simp only [List.not_mem_nil, false_and, exists_false, false_or] at h
    rw [show (calculate_weekly_summary resp sd).subject_distribution =
          (taskPairs resp.weekly_plan).foldl (fun a p => distAdd a p.1 p.2) [] from rfl, h]
    simp only [taskPairs, List.mem_flatMap, List.mem_map]
    constructor
    · rintro ⟨p, ⟨d, hd, t, ht, hpt⟩, hpc⟩
      exact ⟨d, hd, t, ht, by rw [← hpc, ← hpt]⟩
    · rintro ⟨d, hd, t, ht, htc⟩
      exact ⟨(t.category, t.assigned_minutes), ⟨d, hd, t, ht, rfl⟩, htc⟩
  · have h : (calculate_weekly_summary resp sd).focus_areas =
        (focusSet resp.weekly_plan).take 3 := rfl
    rw [h]
    simpa using List.length_take_le 3 (focusSet resp.weekly_plan)
  · intro f hf
    have hmem : f ∈ focusSet resp.weekly_plan := List.mem_of_mem_take hf
    have h := (focusSet_foldl_mem resp.weekly_plan [] f).mp hmem
    simp only [List.not_mem_nil, false_or] at h
    rcases h with ⟨d, hd, hdf, hne⟩
    exact ⟨d, hd, hdf, hne⟩

/-- C5 witness: the amended theorem evaluated on the concrete skewed
one-day proposal. -/
theorem weekly_summary_amended_witness :
    (calculate_weekly_summary respSkew "2025-01-06").total_study_minutes =
        (respSkew.weekly_plan.map (fun d => d.total_planned_minutes)).sum
    ∧ (∃ mv, ("수학", mv) ∈ (calculate_weekly_summary respSkew "2025-01-06").subject_distribution)
    ∧ (calculate_weekly_summary respSkew "2025-01-06").focus_areas.length ≤ 3
    ∧ (∃ d ∈ respSkew.weekly_plan, d.daily_focus = "focus" ∧ "focus" ≠ "") := by
  have h := weekly_summary_amended respSkew "2025-01-06"
  refine ⟨h.1, ?_, h.2.2.1, ?_⟩
  · exact (h.2.1 "수학").mpr (by decide)
  · exact h.2.2.2 "focus" (by decide)

/-! ## C6 — conflict validation on the update path -/

/-- The inner scan finds nothing iff the fixed block overlaps no later block. -/
theorem firstOverlapWith_eq_none (b : ClockTime × ClockTime)
    (l : List (ClockTime × ClockTime)) :
    firstOverlapWith b l = none ↔ ∀ c ∈ l, overlapB b c = false := by
  induction l with
  | nil => simp [firstOverlapWith]
  | cons c rest ih =>
    by_cases h : overlapB b c = true
    · simp [firstOverlapWith, h]
    · rw [Bool.not_eq_true] at h
      simp [firstOverlapWith, h, ih]

/-- A block found by the inner scan is a later block that overlaps. -/
theorem firstOverlapWith_eq_some (b c : ClockTime × ClockTime)
    (l : List (ClockTime × ClockTime)) :
    firstOverlapWith b l = some c → c ∈ l ∧ overlapB b c = true := by
  induction l with
  | nil => simp [firstOverlapWith]
  | cons c2 rest ih =>
    by_cases h : overlapB b c2 = true
    · simp only [firstOverlapWith, h, if_true, Option.some.injEq]
      rintro rfl
      exact ⟨List.mem_cons_self _ _, h⟩
    · rw [Bool.not_eq_true] at h
      simp only [firstOverlapWith, h, Bool.false_eq_true, if_false]
      intro hsome
      rcases ih hsome with ⟨hmem, hov⟩
      exact ⟨List.mem_cons_of_mem c2 hmem, hov⟩

/-- The pair scan accepts a weekday's block list iff it is pairwise
non-overlapping. -/
theorem pairConflict_eq_none (l : List (ClockTime × ClockTime)) :
    pairConflict l = none ↔ List.Pairwise (fun a b => overlapB a b = false) l := by
  induction l with
  | nil => simp [pairConflict]
  | cons b rest ih =>
    rw [List.pairwise_cons]
    cases h : firstOverlapWith b rest with
    | some c =>
      simp only [pairConflict, h]
      constructor
      · intro hcontra; exact absurd hcontra (by simp)
      · rintro ⟨hall, _⟩
        rcases firstOverlapWith_eq_some b c rest h with ⟨hmem, hov⟩
        rw [hall c hmem] at hov
        exact absurd hov (by simp)
    | none =>
      simp only [pairConflict, h]
      rw [ih]
      constructor
      · intro hp; exact ⟨(firstOverlapWith_eq_none b rest).mp h, hp⟩
      · rintro ⟨_, hp⟩; exact hp

/-- A pair found by the scan is an ordered (i < j) pair of blocks of the
list that overlaps. -/
theorem pairConflict_eq_some (l : List (ClockTime × ClockTime))
    (p q : ClockTime × ClockTime) :
    pairConflict l = some (p, q) → [p, q].Sublist l ∧ overlapB p q = true := by
  induction l with
  | nil => simp [pairConflict]
  | cons b rest ih =>
    cases h : firstOverlapWith b rest with
    | some c =>
      simp only [pairConflict, h, Option.some.injEq, Prod.mk.injEq]
      rintro ⟨rfl, rfl⟩
      rcases firstOverlapWith_eq_some _ _ _ h with ⟨hmem, hov⟩
      exact ⟨(List.singleton_sublist.mpr hmem).cons₂ _, hov⟩
    | none =>
      simp only [pairConflict, h]
      intro hsome
      rcases ih hsome with ⟨hsub, hov⟩
      exact ⟨hsub.cons b, hov⟩

/-- Membership in the weekday key list: exactly the weekdays of the
submitted blocks. -/
theorem weekdaysOf_foldl_mem (req : List RoutineBlockRequest) :
    ∀ (acc : List DayOfWeek) (d : DayOfWeek),
      d ∈ req.foldl
          (fun acc b => if b.day_of_week ∈ acc then acc else acc ++ [b.day_of_week]) acc ↔
        (d ∈ acc ∨ ∃ b ∈ req, b.day_of_week = d) := by
  induction req with
  | nil => intro acc d; simp
  | cons hd tl ih =>
    intro acc d
    simp only [List.foldl_cons]
    rw [ih]
    by_cases hin : hd.day_of_week ∈ acc
    · simp only [hin, if_true]
      constructor
      · rintro (h | ⟨b, hb, hbd⟩)
        · exact Or.inl h
        · exact Or.inr ⟨b, List.mem_cons_of_mem hd hb, hbd⟩
      · rintro (h | ⟨b, hb, hbd⟩)
        · exact Or.inl h
        · rcases List.mem_cons.mp hb with rfl | hb2
          · exact Or.inl (hbd ▸ hin)
          · exact Or.inr ⟨b, hb2, hbd⟩
    · simp only [hin, if_false]
      constructor
      · rintro (h | ⟨b, hb, hbd⟩)
        · rcases List.mem_append.mp h with h2 | h2
          · exact Or.inl h2
          · exact Or.inr ⟨hd, List.mem_cons_self hd tl, (List.mem_singleton.mp h2).symm⟩
        · exact Or.inr ⟨b, List.mem_cons_of_mem hd hb, hbd⟩
      · rintro (h | ⟨b, hb, hbd⟩)
        · exact Or.inl (List.mem_append.mpr (Or.inl h))
        · rcases List.mem_cons.mp hb with rfl | hb2
          · exact Or.inl (List.mem_append.mpr (Or.inr (List.mem_singleton.mpr hbd.symm)))
          · exact Or.inr ⟨b, hb2, hbd⟩

/-- A weekday is a dict key iff some submitted block lies on it. -/
theorem weekdaysOf_mem (req : List RoutineBlockRequest) (d : DayOfWeek) :
    d ∈ weekdaysOf req ↔ ∃ b ∈ req, b.day_of_week = d := by
  have h := weekdaysOf_foldl_mem req [] d
  simpa [weekdaysOf] using h

/-- The weekday loop accepts iff every key's pair scan accepts. -/
theorem findConflictAux_eq_none (req : List RoutineBlockRequest)
    (ds : List DayOfWeek) :
    findConflictAux req ds = none ↔ ∀ d ∈ ds, pairConflict (blocksFor req d) = none := by
  induction ds with
  | nil => simp [findConflictAux]
  | cons d0 ds' ih =>
    cases h : pairConflict (blocksFor req d0) with
    | some pq =>
      simp only [findConflictAux, h]
      constructor
      · intro hcontra; exact absurd hcontra (by simp)
      · intro hall
        have := hall d0 (List.mem_cons_self d0 ds')
        rw [this] at h
        exact absurd h (by simp)
    | none =>
      simp only [findConflictAux, h]
      rw [ih]
      constructor
      · intro hall d hd
        rcases List.mem_cons.mp hd with rfl | hd2
        · exact h
        · exact hall d hd2
      · intro hall d hd
        exact hall d (List.mem_cons_of_mem d0 hd)

/-- A conflict reported by the weekday loop comes from the pair scan of one
of the visited weekdays, and is that scan's first pair's (start, end). -/
theorem findConflictAux_eq_some (req : List RoutineBlockRequest)
    (ds : List DayOfWeek) (d : DayOfWeek) (s e : ClockTime) :
    findConflictAux req ds = some (d, s, e) →
      d ∈ ds ∧ ∃ q, pairConflict (blocksFor req d) = some ((s, e), q) := by
  induction ds with
  | nil => simp [findConflictAux]
  | cons d0 ds' ih =>
    cases h : pairConflict (blocksFor req d0) with
    | some pq =>
      simp only [findConflictAux, h, Option.some.injEq, Prod.mk.injEq]
      rintro ⟨rfl, rfl, rfl⟩
      refine ⟨List.mem_cons_self _ _, ⟨pq.2, ?_⟩⟩
      rw [h]
    | none =>
      simp only [findConflictAux, h]
      intro hsome
      rcases ih hsome with ⟨hmem, hq⟩
      exact ⟨List.mem_cons_of_mem d0 hmem, hq⟩

/-- The same-weekday guarded pairwise property over the flat submission is
equivalent to pairwise non-overlap inside every weekday group. -/
theorem pairwise_day_groups (req : List RoutineBlockRequest) :
    (∀ d : DayOfWeek, List.Pairwise (fun a b => overlapB a b = false) (blocksFor req d)) ↔
      List.Pairwise (fun a b : RoutineBlockRequest =>
        a.day_of_week = b.day_of_week →
          overlapB (a.start_time, a.end_time) (b.start_time, b.end_time) = false) req := by
  constructor
  · intro hall
    rw [List.pairwise_iff_forall_sublist]
    intro a b hsub hab
    have hfilter : [a, b].filter (fun x => decide (x.day_of_week = a.day_of_week)) = [a, b] := by
      simp [List.filter_cons, hab.symm]
    have hsub2 : [a, b].Sublist (req.filter (fun x => decide (x.day_of_week = a.day_of_week))) := by
      rw [← hfilter]
      exact hsub.filter _
    have hsub3 : [(a.start_time, a.end_time), (b.start_time, b.end_time)].Sublist
        (blocksFor req a.day_of_week) := by
      have := hsub2.map (fun x => (x.start_time, x.end_time))
      simpa [blocksFor] using this
    exact List.pairwise_iff_forall_sublist.mp (hall a.day_of_week) hsub3
  · intro hp d
    unfold blocksFor
    rw [List.pairwise_map]
    have hpf : List.Pairwise (fun a b : RoutineBlockRequest =>
        a.day_of_week = b.day_of_week →
          overlapB (a.start_time, a.end_time) (b.start_time, b.end_time) = false)
        (req.filter (fun b => decide (b.day_of_week = d))) := hp.filter _
    refine hpf.imp_of_mem ?_
    intro a b ha hb hab
    have hda : a.day_of_week = d := by simpa using (List.mem_filter.mp ha).2
    have hdb : b.day_of_week = d := by simpa using (List.mem_filter.mp hb).2
    exact hab (hda.trans hdb.symm)

/-- A weekday with no submitted block has an empty group. -/
theorem blocksFor_eq_nil_of_not_mem (req : List RoutineBlockRequest) (d : DayOfWeek)
    (h : d ∉ weekdaysOf req) : blocksFor req d = [] := by
  unfold blocksFor
  rw [List.filter_eq_nil_iff.mpr, List.map_nil]
  intro b hb
  simp only [decide_eq_true_eq]
  intro hbd
  exact h ((weekdaysOf_mem req d).mpr ⟨b, hb, hbd⟩)

/-- C6: the overlap validation of `update_student_routines` accepts exactly
the submissions with no same-weekday overlapping pair (closed-open
semantics), and on the first conflict it reports a weekday that really
carries an ordered overlapping pair — and the operation returns the
conflict with the state untouched, before any routine row is deleted or
inserted. -/
theorem update_overlap_validation_correct (req : List RoutineBlockRequest) :
    (findConflict req = none ↔
        List.Pairwise (fun a b : RoutineBlockRequest =>
          a.day_of_week = b.day_of_week →
            overlapB (a.start_time, a.end_time) (b.start_time, b.end_time) = false) req)
    ∧ (∀ (d : DayOfWeek) (s e : ClockTime), findConflict req = some (d, s, e) →
        (∃ q, [(s, e), q].Sublist (blocksFor req d) ∧ overlapB (s, e) q = true)
        ∧ ∀ (oracle : Nat → Option AiDayPlan) (today : Nat) (st : EngineState),
            update_student_routines oracle today st req = (st, .conflict d s e)) := by
  constructor
  · rw [← pairwise_day_groups]
    unfold findConflict
    rw [findConflictAux_eq_none]
    constructor
    · intro hall d
      by_cases hd : d ∈ weekdaysOf req
      · exact (pairConflict_eq_none _).mp (hall d hd)
      · rw [blocksFor_eq_nil_of_not_mem req d hd]
        exact List.Pairwise.nil
    · intro hall d _
      exact (pairConflict_eq_none _).mpr (hall d)
  · intro d s e hfc
    have hsome := findConflictAux_eq_some req (weekdaysOf req) d s e hfc
    rcases hsome.2 with ⟨q, hq⟩
    rcases pairConflict_eq_some _ _ _ hq with ⟨hsub, hov⟩
    refine ⟨⟨q, hsub, hov⟩, ?_⟩
    intro oracle today st
    have hne : req ≠ [] := by
      rintro rfl
      simp [findConflict, weekdaysOf, findConflictAux] at hfc
    simp only [update_student_routines, if_neg hne, hfc]

/-- C6 witness: the spec's §8 scenario — TUE 09:00-10:00 and TUE 09:30-10:30
— is rejected with a conflict naming TUE, and the state is untouched. -/
theorem update_overlap_validation_correct_witness :
    findConflict [tueBlock1, tueBlock2] = some (.TUE, ⟨9, 0⟩, ⟨10, 0⟩)
    ∧ (∃ q, [(⟨9, 0⟩, ⟨10, 0⟩), q].Sublist (blocksFor [tueBlock1, tueBlock2] .TUE)
          ∧ overlapB (⟨9, 0⟩, ⟨10, 0⟩) q = true)
    ∧ update_student_routines (fun _ => none) 0 stWed [tueBlock1, tueBlock2] =
        (stWed, .conflict .TUE ⟨9, 0⟩ ⟨10, 0⟩) := by
  have h := (update_overlap_validation_correct [tueBlock1, tueBlock2]).2
    .TUE ⟨9, 0⟩ ⟨10, 0⟩ (by decide)
  exact ⟨by decide, h.1, h.2 (fun _ => none) 0 stWed⟩

/-! ## Regeneration-engine lemmas (shared by C1, C2, C3, C8) -/

/-- Inverting a successful PATCH /routines run: the validations passed, the
routine rows were replaced, the report is the map of the per-plan processing
over the loaded future plans, and the plan store keeps non-selected plans. -/
theorem update_ok_inv (oracle : Nat → Option AiDayPlan) (today : Nat)
    (st : EngineState) (req : List RoutineBlockRequest) (st2 : EngineState)
    (items : List RegeneratedPlanItem) (del : Nat)
    (h : update_student_routines oracle today st req = (st2, .ok items del)) :
    findConflict req = none
    ∧ st2 = ⟨req.map RoutineBlockRequest.toRoutine,
        st.plans.map (fun p => if selectPlan today p then
          (processPlan oracle (req.map RoutineBlockRequest.toRoutine) (weekdaysOf req) p).1
          else p)⟩
    ∧ items = (futurePlans today st).map
        (fun p => (processPlan oracle (req.map RoutineBlockRequest.toRoutine) (weekdaysOf req) p).2)
    ∧ del = st.routines.length := by
  by_cases hne : req = []
  · subst hne
    simp [update_student_routines] at h
  · cases hfc : findConflict req with
    | some dse =>
      obtain ⟨d, s, e⟩ := dse
      simp only [update_student_routines, if_neg hne, hfc] at h
      simp [Prod.ext_iff] at h
    | none =>
      simp only [update_student_routines, if_neg hne, hfc] at h
      rw [Prod.ext_iff] at h
      obtain ⟨hst, hout⟩ := h
      simp only [UpdateOutcome.ok.injEq] at hout
      exact ⟨rfl, hst.symm, hout.1.symm, hout.2.symm⟩

/-- A plan belongs to the loaded list iff it is stored, future and
incomplete. -/
theorem mem_futurePlans (today : Nat) (st : EngineState) (p : DailyPlan) :
    p ∈ futurePlans today st ↔ (p ∈ st.plans ∧ selectPlan today p = true) := by
  unfold futurePlans
  rw [(List.perm_insertionSort _ _).mem_iff, List.mem_filter]

/-- Counting over the loaded list is counting over the stored selection. -/
theorem countP_futurePlans (today : Nat) (st : EngineState)
    (f : DailyPlan → Bool) :
    (futurePlans today st).countP f = (st.plans.filter (selectPlan today)).countP f :=
  (List.perm_insertionSort _ _).countP_eq f

/-- `getElem!` through `map` on plan stores. -/
theorem getElem_bang_map (l : List DailyPlan) (f : DailyPlan → DailyPlan) (i : Nat)
    (h : i < l.length) : (l.map f)[i]! = f l[i]! := by
  have h2 : i < (l.map f).length := by simpa using h
  rw [getElem!_pos (l.map f) i h2, getElem!_pos l i h, List.getElem_map]

/-- A plan on an unaffected weekday is passed through untouched and reported
`unchanged`, without consulting the proposer. -/
theorem processPlan_not_affected (oracle : Nat → Option AiDayPlan)
    (nr : List WeeklyRoutine) (cd : List DayOfWeek) (p : DailyPlan)
    (h : dateWeekday p.plan_date ∉ cd) :
    processPlan oracle nr cd p =
      (p, ⟨p.id, p.plan_date, dateWeekday p.plan_date, false, "unchanged",
           p.tasks.length, (p.tasks.map (fun t => t.assigned_minutes)).sum, none, none⟩) := by
  simp only [processPlan, if_neg h]

/-- On an affected weekday with blocks of non-zero total whose proposer call
succeeds, the plan is replaced from the response and reported `regenerated`
— whatever the response contains. -/
theorem processPlan_affected_some (oracle : Nat → Option AiDayPlan)
    (nr : List WeeklyRoutine) (cd : List DayOfWeek) (p : DailyPlan) (ai : AiDayPlan)
    (haff : dateWeekday p.plan_date ∈ cd)
    (hblocks : nr.filter (fun r => decide (r.day_of_week = dateWeekday p.plan_date)) ≠ [])
    (hsum : ((nr.filter (fun r => decide (r.day_of_week = dateWeekday p.plan_date))).map
        (fun r => r.total_minutes)).sum ≠ 0)
    (hai : oracle p.plan_date = some ai) :
    processPlan oracle nr cd p =
      (applyAi p ai,
       ⟨p.id, p.plan_date, dateWeekday p.plan_date, true, "regenerated",
        ai.tasks.length, ai.total_planned_minutes,
        some ⟨p.tasks.length, ai.tasks.length,
              (p.tasks.map (fun t => t.assigned_minutes)).sum, ai.total_planned_minutes⟩,
        none⟩) := by
  simp only [processPlan, if_pos haff, if_neg hblocks,
    regenerate_daily_plan_for_date, if_neg hsum, hai]

/-- On an affected weekday with blocks of non-zero total whose proposer call
fails, the plan is kept untouched and reported `failed`. -/
theorem processPlan_affected_none (oracle : Nat → Option AiDayPlan)
    (nr : List WeeklyRoutine) (cd : List DayOfWeek) (p : DailyPlan)
    (haff : dateWeekday p.plan_date ∈ cd)
    (hblocks : nr.filter (fun r => decide (r.day_of_week = dateWeekday p.plan_date)) ≠ [])
    (hsum : ((nr.filter (fun r => decide (r.day_of_week = dateWeekday p.plan_date))).map
        (fun r => r.total_minutes)).sum ≠ 0)
    (hai : oracle p.plan_date = none) :
    processPlan oracle nr cd p =
      (p, ⟨p.id, p.plan_date, dateWeekday p.plan_date, true, "failed",
           p.tasks.length, (p.tasks.map (fun t => t.assigned_minutes)).sum, none,
           some "AI 계획 생성 실패"⟩) := by
  simp only [processPlan, if_pos haff, if_neg hblocks,
    regenerate_daily_plan_for_date, if_neg hsum, hai]

/-- For a submission of positive-duration blocks, every weekday present in
it has a non-empty group of inserted routine rows with non-zero total. -/
theorem affected_day_blocks (req : List RoutineBlockRequest)
    (hpos : ∀ b ∈ req, 0 < b.total_minutes) (d : DayOfWeek)
    (hd : d ∈ weekdaysOf req) :
    (req.map RoutineBlockRequest.toRoutine).filter
        (fun r => decide (r.day_of_week = d)) ≠ []
    ∧ (((req.map RoutineBlockRequest.toRoutine).filter
        (fun r => decide (r.day_of_week = d))).map (fun r => r.total_minutes)).sum ≠ 0 := by
  rcases (weekdaysOf_mem req d).mp hd with ⟨b, hb, hbd⟩
  have hmem : b.toRoutine ∈ (req.map RoutineBlockRequest.toRoutine).filter
      (fun r => decide (r.day_of_week = d)) := by
    refine List.mem_filter.mpr ⟨List.mem_map_of_mem _ hb, ?_⟩
    simpa [RoutineBlockRequest.toRoutine] using hbd
  have hne : (req.map RoutineBlockRequest.toRoutine).filter
      (fun r => decide (r.day_of_week = d)) ≠ [] := List.ne_nil_of_mem hmem
  refine ⟨hne, ?_⟩
  have hall : ∀ x ∈ ((req.map RoutineBlockRequest.toRoutine).filter
      (fun r => decide (r.day_of_week = d))).map (fun r => r.total_minutes), 0 < x := by
    intro x hx
    rcases List.mem_map.mp hx with ⟨r, hr, hrx⟩
    have hr2 : r ∈ req.map RoutineBlockRequest.toRoutine := (List.mem_filter.mp hr).1
    rcases List.mem_map.mp hr2 with ⟨b2, hb2, hb2r⟩
    have : r.total_minutes = b2.total_minutes := by rw [← hb2r]; rfl
    rw [← hrx, this]
    exact hpos b2 hb2
  have hnil : ((req.map RoutineBlockRequest.toRoutine).filter
      (fun r => decide (r.day_of_week = d))).map (fun r => r.total_minutes) ≠ [] := by
    intro hcontra
    exact hne (by simpa using List.map_eq_nil_iff.mp hcontra)
  have hpos2 := List.sum_pos _ hall hnil
  omega

/-- The report status of a processed plan is `failed` exactly when the
plan's weekday is affected and the proposer returns nothing, provided all
submitted blocks have positive durations. -/
theorem processPlan_status_failed (oracle : Nat → Option AiDayPlan)
    (req : List RoutineBlockRequest) (p : DailyPlan)
    (hpos : ∀ b ∈ req, 0 < b.total_minutes) :
    ((processPlan oracle (req.map RoutineBlockRequest.toRoutine) (weekdaysOf req) p).2.status
        == "failed") =
      (decide (dateWeekday p.plan_date ∈ weekdaysOf req) && (oracle p.plan_date).isNone) := by
  by_cases haff : dateWeekday p.plan_date ∈ weekdaysOf req
  · obtain ⟨hb, hs⟩ := affected_day_blocks req hpos _ haff
    cases hai : oracle p.plan_date with
    | some ai =>
      rw [processPlan_affected_some oracle _ _ p ai haff hb hs hai]
      simp [haff, hai]
    | none =>
      rw [processPlan_affected_none oracle _ _ p haff hb hs hai]
      simp [haff, hai]
  · rw [processPlan_not_affected oracle _ _ p haff]
    simp [haff]

/-- A loaded plan on a weekday absent from the affected set is reported
`unchanged`, kept in the new store untouched, and processed identically
under any oracle.  Shared workhorse for the frame claims. -/
theorem unaffected_plan_preserved (oracle : Nat → Option AiDayPlan) (today : Nat)
    (st : EngineState) (req : List RoutineBlockRequest) (st2 : EngineState)
    (items : List RegeneratedPlanItem) (del : Nat)
    (hok : update_student_routines oracle today st req = (st2, .ok items del))
    (p : DailyPlan) (hp : p ∈ st.plans) (hsel : selectPlan today p = true)
    (hnaff : dateWeekday p.plan_date ∉ weekdaysOf req) :
    (processPlan oracle (req.map RoutineBlockRequest.toRoutine) (weekdaysOf req) p).2 ∈ items
    ∧ (processPlan oracle (req.map RoutineBlockRequest.toRoutine) (weekdaysOf req) p).2.status
        = "unchanged"
    ∧ (processPlan oracle (req.map RoutineBlockRequest.toRoutine) (weekdaysOf req) p).1 = p
    ∧ p ∈ st2.plans
    ∧ ∀ g : Nat → Option AiDayPlan,
        processPlan g (req.map RoutineBlockRequest.toRoutine) (weekdaysOf req) p =
          processPlan oracle (req.map RoutineBlockRequest.toRoutine) (weekdaysOf req) p := by
  obtain ⟨-, hst2, hitems, -⟩ := update_ok_inv oracle today st req st2 items del hok
  subst hst2 hitems
  have hproc := processPlan_not_affected oracle
    (req.map RoutineBlockRequest.toRoutine) (weekdaysOf req) p hnaff
  refine ⟨?_, ?_, ?_, ?_, ?_⟩
  · exact List.mem_map_of_mem _ ((mem_futurePlans today st p).mpr ⟨hp, hsel⟩)
  · rw [hproc]
  · rw [hproc]
  · refine List.mem_map.mpr ⟨p, hp, ?_⟩
    rw [if_pos hsel, hproc]
  · intro g
    rw [hproc, processPlan_not_affected g _ _ p hnaff]

/-- Positional preservation of plans the query does not select. -/
theorem unselected_plan_untouched (oracle : Nat → Option AiDayPlan) (today : Nat)
    (st : EngineState) (req : List RoutineBlockRequest) (st2 : EngineState)
    (items : List RegeneratedPlanItem) (del : Nat)
    (hok : update_student_routines oracle today st req = (st2, .ok items del)) :
    st2.plans.length = st.plans.length
    ∧ ∀ i, i < st.plans.length → selectPlan today st.plans[i]! = false →
        st2.plans[i]! = st.plans[i]! := by
  obtain ⟨-, hst2, -, -⟩ := update_ok_inv oracle today st req st2 items del hok
  subst hst2
  refine ⟨by simp, ?_⟩
  intro i hi hsel
  rw [getElem_bang_map st.plans _ i hi, if_neg (by simp [hsel])]

/-! ## C2 — frame conditions of regeneration -/

/-- C2: a successful routine update never mutates a stored plan dated before
today or already completed (the loaded set excludes them); and every loaded
future incomplete plan whose weekday is not among the submitted weekdays is
reported `unchanged`, kept byte-for-byte (title, target minutes, tasks), and
its processing does not depend on the proposer oracle at all. -/
theorem regeneration_frame_conditions (oracle : Nat → Option AiDayPlan) (today : Nat)
    (st : EngineState) (req : List RoutineBlockRequest) (st2 : EngineState)
    (items : List RegeneratedPlanItem) (del : Nat)
    (hok : update_student_routines oracle today st req = (st2, .ok items del)) :
    st2.plans.length = st.plans.length
    ∧ (∀ i, i < st.plans.length →
        (st.plans[i]!.plan_date < today ∨ st.plans[i]!.is_completed = true) →
          st2.plans[i]! = st.plans[i]!)
    ∧ (∀ p ∈ st.plans, selectPlan today p = true →
        dateWeekday p.plan_date ∉ weekdaysOf req →
          (processPlan oracle (req.map RoutineBlockRequest.toRoutine) (weekdaysOf req) p).2 ∈ items
          ∧ (processPlan oracle (req.map RoutineBlockRequest.toRoutine) (weekdaysOf req) p).2.status
              = "unchanged"
          ∧ (processPlan oracle (req.map RoutineBlockRequest.toRoutine) (weekdaysOf req) p).1 = p
          ∧ p ∈ st2.plans
          ∧ ∀ g : Nat → Option AiDayPlan,
              processPlan g (req.map RoutineBlockRequest.toRoutine) (weekdaysOf req) p =
                processPlan oracle (req.map RoutineBlockRequest.toRoutine) (weekdaysOf req) p) := by
  obtain ⟨hlen, hpres⟩ :=
    unselected_plan_untouched oracle today st req st2 items del hok
  refine ⟨hlen, ?_, ?_⟩
  · intro i hi hcond
    refine hpres i hi ?_
    unfold selectPlan
    rcases hcond with h | h
    · have : ¬ (today ≤ st.plans[i]!.plan_date) := by omega
      simp [this]
    · simp [h]
  · intro p hp hsel hnaff
    exact unaffected_plan_preserved oracle today st req st2 items del hok p hp hsel hnaff

/-- C2 witness: with today = 1, a past plan (date 0) and a completed plan
stay in place positionally, and the future incomplete Tuesday plan, being
unaffected by a Monday-only submission, is reported `unchanged` and kept. -/
theorem regeneration_frame_conditions_witness :
    update_student_routines (fun _ => some aiGood) 1 stFrame [monBlock] =
      (⟨[monBlock.toRoutine], [pastPlan, donePlan, tuePlan]⟩,
       .ok [⟨2, 1, .TUE, false, "unchanged", 1, 90, none, none⟩] 0)
    ∧ ((⟨[monBlock.toRoutine], [pastPlan, donePlan, tuePlan]⟩ : EngineState).plans.length
          = stFrame.plans.length
      ∧ (∀ i, i < stFrame.plans.length →
          (stFrame.plans[i]!.plan_date < 1 ∨ stFrame.plans[i]!.is_completed = true) →
            (⟨[monBlock.toRoutine], [pastPlan, donePlan, tuePlan]⟩ : EngineState).plans[i]!
              = stFrame.plans[i]!)
      ∧ (∀ p ∈ stFrame.plans, selectPlan 1 p = true →
          dateWeekday p.plan_date ∉ weekdaysOf [monBlock] →
            (processPlan (fun _ => some aiGood)
                ([monBlock].map RoutineBlockRequest.toRoutine) (weekdaysOf [monBlock]) p).2
              ∈ [(⟨2, 1, .TUE, false, "unchanged", 1, 90, none, none⟩ : RegeneratedPlanItem)]
            ∧ (processPlan (fun _ => some aiGood)
                ([monBlock].map RoutineBlockRequest.toRoutine) (weekdaysOf [monBlock]) p).2.status
                = "unchanged"
            ∧ (processPlan (fun _ => some aiGood)
                ([monBlock].map RoutineBlockRequest.toRoutine) (weekdaysOf [monBlock]) p).1 = p
            ∧ p ∈ (⟨[monBlock.toRoutine], [pastPlan, donePlan, tuePlan]⟩ : EngineState).plans
            ∧ ∀ g : Nat → Option AiDayPlan,
                processPlan g ([monBlock].map RoutineBlockRequest.toRoutine)
                    (weekdaysOf [monBlock]) p =
                  processPlan (fun _ => some aiGood)
                    ([monBlock].map RoutineBlockRequest.toRoutine) (weekdaysOf [monBlock]) p)) :=
  ⟨by decide,
   regeneration_frame_conditions (fun _ => some aiGood) 1 stFrame [monBlock]
     ⟨[monBlock.toRoutine], [pastPlan, donePlan, tuePlan]⟩
     [⟨2, 1, .TUE, false, "unchanged", 1, 90, none, none⟩] 0 (by decide)⟩

/-! ## C1 — a weekday with zero submitted blocks -/

/-- C1 counterexample: the spec scenario — submit a Monday-only routine
while a future incomplete Wednesday plan exists.  Wednesday has zero blocks
in the submission, yet the regeneration pass records `unchanged` for the
Wednesday plan (its weekday is simply not in `changed_days`), not the
claimed `failed` with an explanatory message. -/
theorem zero_block_weekday_marked_unchanged_cex :
    [monBlock].filter
        (fun b => decide (b.day_of_week = dateWeekday wedPlan.plan_date)) = []
    ∧ selectPlan 0 wedPlan = true
    ∧ update_student_routines (fun _ => none) 0 stWed [monBlock] =
        (⟨[monBlock.toRoutine], [wedPlan]⟩,
         .ok [⟨1, 2, .WED, false, "unchanged", 1, 120, none, none⟩] 1)
    ∧ ("unchanged" : String) ≠ "failed" := by
  decide

/-- C1 (amended): for every routine update and every loaded future,
incomplete plan whose weekday has zero blocks in the submitted routine, the
pass records outcome `unchanged` (never `failed`: that weekday is not in the
affected set, and the `failed`-with-message branch of routines.py:274-288 is
unreachable) and leaves the plan and its tasks untouched. -/
theorem zero_block_weekday_plans_unchanged (oracle : Nat → Option AiDayPlan)
    (today : Nat) (st : EngineState) (req : List RoutineBlockRequest)
    (st2 : EngineState) (items : List RegeneratedPlanItem) (del : Nat)
    (hok : update_student_routines oracle today st req = (st2, .ok items del))
    (p : DailyPlan) (hp : p ∈ st.plans) (hsel : selectPlan today p = true)
    (hzero : req.filter
        (fun b => decide (b.day_of_week = dateWeekday p.plan_date)) = []) :
    (processPlan oracle (req.map RoutineBlockRequest.toRoutine) (weekdaysOf req) p).2 ∈ items
    ∧ (processPlan oracle (req.map RoutineBlockRequest.toRoutine) (weekdaysOf req) p).2.status
        = "unchanged"
    ∧ (processPlan oracle (req.map RoutineBlockRequest.toRoutine) (weekdaysOf req) p).2.status
        ≠ "failed"
    ∧ (processPlan oracle (req.map RoutineBlockRequest.toRoutine) (weekdaysOf req) p).1 = p
    ∧ p ∈ st2.plans := by
  have hnaff : dateWeekday p.plan_date ∉ weekdaysOf req := by
    rw [weekdaysOf_mem]
    rintro ⟨b, hb, hbd⟩
    have := List.filter_eq_nil_iff.mp hzero b hb
    simp [hbd] at this
  obtain ⟨h1, h2, h3, h4, -⟩ :=
    unaffected_plan_preserved oracle today st req st2 items del hok p hp hsel hnaff
  refine ⟨h1, h2, ?_, h3, h4⟩
  rw [h2]
  decide

/-- C1 witness: the amended statement on the concrete Monday-only submission
with a stored future incomplete Wednesday plan. -/
theorem zero_block_weekday_plans_unchanged_witness :
    (update_student_routines (fun _ => none) 0 stWed [monBlock] =
        (⟨[monBlock.toRoutine], [wedPlan]⟩,
         .ok [⟨1, 2, .WED, false, "unchanged", 1, 120, none, none⟩] 1)
      ∧ wedPlan ∈ stWed.plans
      ∧ selectPlan 0 wedPlan = true
      ∧ [monBlock].filter
          (fun b => decide (b.day_of_week = dateWeekday wedPlan.plan_date)) = [])
    ∧ ((processPlan (fun _ => none) ([monBlock].map RoutineBlockRequest.toRoutine)
          (weekdaysOf [monBlock]) wedPlan).2
        ∈ [(⟨1, 2, .WED, false, "unchanged", 1, 120, none, none⟩ : RegeneratedPlanItem)]
      ∧ (processPlan (fun _ => none) ([monBlock].map RoutineBlockRequest.toRoutine)
          (weekdaysOf [monBlock]) wedPlan).2.status = "unchanged"
      ∧ (processPlan (fun _ => none) ([monBlock].map RoutineBlockRequest.toRoutine)
          (weekdaysOf [monBlock]) wedPlan).2.status ≠ "failed"
      ∧ (processPlan (fun _ => none) ([monBlock].map RoutineBlockRequest.toRoutine)
          (weekdaysOf [monBlock]) wedPlan).1 = wedPlan
      ∧ wedPlan ∈ (⟨[monBlock.toRoutine], [wedPlan]⟩ : EngineState).plans) :=
  ⟨⟨by decide, by decide, by decide, by decide⟩,
   zero_block_weekday_plans_unchanged (fun _ => none) 0 stWed [monBlock]
     ⟨[monBlock.toRoutine], [wedPlan]⟩
     [⟨1, 2, .WED, false, "unchanged", 1, 120, none, none⟩] 1 (by decide)
     wedPlan (by decide) (by decide) (by decide)⟩

/-! ## C3 — a single proposer failure does not abort the batch -/

/-- C3: during a routine update with a valid non-empty submission of
positive-duration blocks, if exactly one loaded affected plan's proposer
call fails while the others succeed, the run still completes: the report
covers every loaded plan, contains exactly one `failed` entry, every other
affected plan is reported `regenerated`, and the single commit persists both
the routine replacement and the successful days' new plans. -/
theorem single_proposer_failure_isolated (oracle : Nat → Option AiDayPlan)
    (today : Nat) (st : EngineState) (req : List RoutineBlockRequest)
    (hne : req ≠ [])
    (hconf : findConflict req = none)
    (hpos : ∀ b ∈ req, 0 < b.total_minutes)
    (hone : (st.plans.filter (selectPlan today)).countP
        (fun p => decide (dateWeekday p.plan_date ∈ weekdaysOf req)
          && (oracle p.plan_date).isNone) = 1) :
    ∃ (st2 : EngineState) (items : List RegeneratedPlanItem),
      update_student_routines oracle today st req = (st2, .ok items st.routines.length)
      ∧ items.length = (futurePlans today st).length
      ∧ countStatus items "failed" = 1
      ∧ (∀ p ∈ futurePlans today st, dateWeekday p.plan_date ∈ weekdaysOf req →
          ∀ ai, oracle p.plan_date = some ai →
            (processPlan oracle (req.map RoutineBlockRequest.toRoutine)
                (weekdaysOf req) p).2.status = "regenerated"
            ∧ (processPlan oracle (req.map RoutineBlockRequest.toRoutine)
                (weekdaysOf req) p).1 = applyAi p ai
            ∧ applyAi p ai ∈ st2.plans)
      ∧ st2.routines = req.map RoutineBlockRequest.toRoutine := by
  refine ⟨⟨req.map RoutineBlockRequest.toRoutine,
      st.plans.map (fun p => if selectPlan today p then
        (processPlan oracle (req.map RoutineBlockRequest.toRoutine) (weekdaysOf req) p).1
        else p)⟩,
    (futurePlans today st).map
      (fun p => (processPlan oracle (req.map RoutineBlockRequest.toRoutine)
        (weekdaysOf req) p).2),
    ?_, by simp, ?_, ?_, rfl⟩
  · simp only [update_student_routines, if_neg hne, hconf]
  · unfold countStatus
    rw [List.countP_map]
    simp only [Function.comp_def]
    have hcong : ∀ p ∈ futurePlans today st,
        ((fun it : RegeneratedPlanItem => it.status == "failed")
          ((processPlan oracle (req.map RoutineBlockRequest.toRoutine)
            (weekdaysOf req) p).2) = true) ↔
        ((fun p : DailyPlan => decide (dateWeekday p.plan_date ∈ weekdaysOf req)
          && (oracle p.plan_date).isNone) p = true) := by
      intro p _
      rw [show ((fun it : RegeneratedPlanItem => it.status == "failed")
          ((processPlan oracle (req.map RoutineBlockRequest.toRoutine)
            (weekdaysOf req) p).2)) =
          ((processPlan oracle (req.map RoutineBlockRequest.toRoutine)
            (weekdaysOf req) p).2.status == "failed") from rfl,
        processPlan_status_failed oracle req p hpos]
    rw [List.countP_congr hcong, countP_futurePlans, hone]
  · intro p hp haff ai hai
    have hsel := ((mem_futurePlans today st p).mp hp).2
    have hpmem := ((mem_futurePlans today st p).mp hp).1
    obtain ⟨hb, hs⟩ := affected_day_blocks req hpos _ haff
    have hproc := processPlan_affected_some oracle
      (req.map RoutineBlockRequest.toRoutine) (weekdaysOf req) p ai haff hb hs hai
    refine ⟨by rw [hproc], by rw [hproc], ?_⟩
    refine List.mem_map.mpr ⟨p, hpmem, ?_⟩
    rw [if_pos hsel, hproc]

/-- C3 witness: two affected future plans (Monday and Tuesday), a proposer
that succeeds for Monday and fails for Tuesday: the run completes with
exactly one `failed` entry, Monday regenerated and persisted, and the
routine rows replaced. -/
theorem single_proposer_failure_isolated_witness :
    ([monBlock, tueBlock1] ≠ ([] : List RoutineBlockRequest)
      ∧ findConflict [monBlock, tueBlock1] = none
      ∧ (∀ b ∈ [monBlock, tueBlock1], 0 < b.total_minutes)
      ∧ (stBoth.plans.filter (selectPlan 0)).countP
          (fun p => decide (dateWeekday p.plan_date ∈ weekdaysOf [monBlock, tueBlock1])
            && (oracle3 p.plan_date).isNone) = 1)
    ∧ ∃ (st2 : EngineState) (items : List RegeneratedPlanItem),
        update_student_routines oracle3 0 stBoth [monBlock, tueBlock1] =
          (st2, .ok items stBoth.routines.length)
        ∧ items.length = (futurePlans 0 stBoth).length
        ∧ countStatus items "failed" = 1
        ∧ (∀ p ∈ futurePlans 0 stBoth,
            dateWeekday p.plan_date ∈ weekdaysOf [monBlock, tueBlock1] →
            ∀ ai, oracle3 p.plan_date = some ai →
              (processPlan oracle3 ([monBlock, tueBlock1].map RoutineBlockRequest.toRoutine)
                  (weekdaysOf [monBlock, tueBlock1]) p).2.status = "regenerated"
              ∧ (processPlan oracle3 ([monBlock, tueBlock1].map RoutineBlockRequest.toRoutine)
                  (weekdaysOf [monBlock, tueBlock1]) p).1 = applyAi p ai
              ∧ applyAi p ai ∈ st2.plans)
        ∧ st2.routines = [monBlock, tueBlock1].map RoutineBlockRequest.toRoutine :=
  ⟨⟨by decide, by decide, by decide, by decide⟩,
   single_proposer_failure_isolated oracle3 0 stBoth [monBlock, tueBlock1]
     (by decide) (by decide) (by decide) (by decide)⟩

/-! ## C8 — proposer responses are applied without validation -/

/-- C8 counterexample: a proposer response with duplicate sequence numbers
(1, 1) and a non-positive assigned-minutes value (0) — invalid under the
§4.3 contract — is nevertheless persisted verbatim and the day is reported
`regenerated`, not `failed`; the existing tasks are replaced by the invalid
ones. -/
theorem invalid_proposal_persisted_cex :
    (aiBad.tasks.map (fun t => t.sequence)) = [1, 1]
    ∧ (aiBad.tasks.map (fun t => t.assigned_minutes)) = [0, 30]
    ∧ update_student_routines (fun _ => some aiBad) 0 ⟨[], [monPlan]⟩ [monBlock] =
        (⟨[monBlock.toRoutine], [applyAi monPlan aiBad]⟩,
         .ok [⟨1, 0, .MON, true, "regenerated", 2, 30, some ⟨1, 2, 50, 30⟩, none⟩] 0)
    ∧ (applyAi monPlan aiBad).tasks = tasksFromAi aiBad.tasks
    ∧ ("regenerated" : String) ≠ "failed" := by
  decide

/-- C8 (amended): the engine performs no validation of the proposer's task
sequences or assigned minutes.  Any non-None response for an affected day
(with positive-duration blocks) is applied verbatim — its tasks persisted
as returned — and the day is reported `regenerated`; a day is reported
`failed` with its existing tasks kept only when the proposer call returns
nothing (exception or zero availability). -/
theorem proposer_output_applied_verbatim (oracle : Nat → Option AiDayPlan)
    (req : List RoutineBlockRequest) (p : DailyPlan) (ai : AiDayPlan)
    (hpos : ∀ b ∈ req, 0 < b.total_minutes)
    (haff : dateWeekday p.plan_date ∈ weekdaysOf req)
    (hsome : oracle p.plan_date = some ai) :
    (processPlan oracle (req.map RoutineBlockRequest.toRoutine)
        (weekdaysOf req) p).2.status = "regenerated"
    ∧ (processPlan oracle (req.map RoutineBlockRequest.toRoutine)
        (weekdaysOf req) p).1.tasks = tasksFromAi ai.tasks
    ∧ ∀ g : Nat → Option AiDayPlan, g p.plan_date = none →
        (processPlan g (req.map RoutineBlockRequest.toRoutine)
            (weekdaysOf req) p).2.status = "failed"
        ∧ (processPlan g (req.map RoutineBlockRequest.toRoutine)
            (weekdaysOf req) p).1 = p := by
  obtain ⟨hb, hs⟩ := affected_day_blocks req hpos _ haff
  have hproc := processPlan_affected_some oracle
    (req.map RoutineBlockRequest.toRoutine) (weekdaysOf req) p ai haff hb hs hsome
  refine ⟨by rw [hproc], by rw [hproc]; rfl, ?_⟩
  intro g hg
  have hproc2 := processPlan_affected_none g
    (req.map RoutineBlockRequest.toRoutine) (weekdaysOf req) p haff hb hs hg
  exact ⟨by rw [hproc2], by rw [hproc2]⟩

/-- C8 witness: the amended statement evaluated on the invalid concrete
response `aiBad`: it is applied verbatim and reported `regenerated`. -/
theorem proposer_output_applied_verbatim_witness :
    ((∀ b ∈ [monBlock], 0 < b.total_minutes)
      ∧ dateWeekday monPlan.plan_date ∈ weekdaysOf [monBlock]
      ∧ (fun _ : Nat => some aiBad) monPlan.plan_date = some aiBad)
    ∧ ((processPlan (fun _ => some aiBad) ([monBlock].map RoutineBlockRequest.toRoutine)
          (weekdaysOf [monBlock]) monPlan).2.status = "regenerated"
      ∧ (processPlan (fun _ => some aiBad) ([monBlock].map RoutineBlockRequest.toRoutine)
          (weekdaysOf [monBlock]) monPlan).1.tasks = tasksFromAi aiBad.tasks
      ∧ ∀ g : Nat → Option AiDayPlan, g monPlan.plan_date = none →
          (processPlan g ([monBlock].map RoutineBlockRequest.toRoutine)
              (weekdaysOf [monBlock]) monPlan).2.status = "failed"
          ∧ (processPlan g ([monBlock].map RoutineBlockRequest.toRoutine)
              (weekdaysOf [monBlock]) monPlan).1 = monPlan) :=
  ⟨⟨by decide, by decide, rfl⟩,
   proposer_output_applied_verbatim (fun _ => some aiBad) [monBlock] monPlan aiBad
     (by decide) (by decide) rfl⟩

end MirrorBackend
